import Mathlib

set_option maxHeartbeats 1000000

/-!
Verification of the pipeline-parallel scheduling layer
(`axlearn/common/pipeline.py`): the layer-major/pipeline-major layout
transforms, the validity mask, the carry/input selector, the scan loop of
`Pipeline._run`, the output extraction, and the entry shape checks.

Arrays are embedded along their leading (scheduling-relevant) axes: an
element of type `α` stands for the whole trailing `[...]` block, so all
`jnp` operations used by the source (pad / reshape / slice / transpose /
where / iota) become index arithmetic on `Mat`/`Vec`.
-/

/-- A tensor viewed along its two leading axes; `get` outside
`[0, rows) × [0, cols)` is unconstrained junk, mirroring that the source
never reads out of range. -/
structure Mat (α : Type) where
  rows : Nat
  cols : Nat
  get : Nat → Nat → α

/-- A tensor viewed along its leading axis. -/
structure Vec (α : Type) where
  len : Nat
  get : Nat → α

/-- `jnp.pad(x, [(0, 0), (0, k)] + ...)` with fill `z`. -/
def Mat.padCols {α : Type} (x : Mat α) (k : Nat) (z : α) : Mat α :=
  ⟨x.rows, x.cols + k, fun i j => if j < x.cols then x.get i j else z⟩

/-- `jnp.reshape(x, [-1] + ...)`: row-major flattening of the two leading
axes into one. -/
def Mat.flatten {α : Type} (x : Mat α) : Vec α :=
  ⟨x.rows * x.cols, fun k => x.get (k / x.cols) (k % x.cols)⟩

/-- `x[:k]` on the leading axis. -/
def Vec.take {α : Type} (v : Vec α) (k : Nat) : Vec α :=
  ⟨k, v.get⟩

/-- `jnp.pad(x, [(0, k)] + ...)` with fill `z`. -/
def Vec.padEnd {α : Type} (v : Vec α) (k : Nat) (z : α) : Vec α :=
  ⟨v.len + k, fun i => if i < v.len then v.get i else z⟩

/-- `jnp.reshape(v, [r, c] + ...)`: row-major unflattening. -/
def Vec.toMat {α : Type} (v : Vec α) (r c : Nat) : Mat α :=
  ⟨r, c, fun i j => v.get (i * c + j)⟩

/-- `jnp.transpose(x, [1, 0] + ...)`. -/
def Mat.transposeMat {α : Type} (x : Mat α) : Mat α :=
  ⟨x.cols, x.rows, fun i j => x.get j i⟩

/-- `x[:, :k]` on the second axis. -/
def Mat.takeCols {α : Type} (x : Mat α) (k : Nat) : Mat α :=
  ⟨x.rows, k, x.get⟩

/-- `transpose_to_pipeline_stage_inputs` (pipeline.py lines 49-76), with the
sharding constraint (a layout no-op) omitted: pad the microbatch axis by N
zeros, flatten, drop the trailing N entries, reshape to `[N, M+N-1, ...]`,
transpose to `[M+N-1, N, ...]`. -/
def transpose_to_pipeline_stage_inputs {α : Type} (x : Mat α) (z : α) : Mat α :=
  let n := x.rows
  let m := x.cols
  let x1 := x.padCols n z
  let x2 := x1.flatten
  let x3 := x2.take (x2.len - n)
  let x4 := x3.toMat n (m + n - 1)
  x4.transposeMat

/-- `transpose_from_pipeline_stage_outputs` (pipeline.py lines 79-109):
transpose to `[N, M+N-1, ...]`, flatten, pad by N zeros, reshape to
`[N, M+N, ...]`, keep the first M columns. -/
def transpose_from_pipeline_stage_outputs {α : Type} (x : Mat α) (z : α) : Mat α :=
  let t := x.rows
  let n := x.cols
  let m := t - n + 1
  let x1 := x.transposeMat
  let x2 := x1.flatten
  let x3 := x2.padEnd n z
  let x4 := x3.toMat n (m + n)
  x4.takeCols m

/-- `Pipeline._is_valid_stage` (pipeline.py lines 496-515), per stage:
`stage_id <= t and t - stage_id < num_microbatches` in int32 arithmetic. -/
def is_valid_stage (num_microbatches : Nat) (t stage_id : Int) : Bool :=
  decide (stage_id ≤ t ∧ t - stage_id < (num_microbatches : Int))

/-- The set of valid (stage, timestep) pairs over one whole loop. -/
def validPairs (n m : Nat) : Finset (Nat × Nat) :=
  (Finset.range n ×ˢ Finset.range (m + n - 1)).filter
    (fun p => is_valid_stage m (p.2 : Int) (p.1 : Int) = true)

/-! ### Layout transform lemmas -/

theorem transpose_to_get {α : Type} (x : Mat α) (z : α) (t i : Nat) :
    (transpose_to_pipeline_stage_inputs x z).get t i =
      (x.padCols x.rows z).get ((i * (x.cols + x.rows - 1) + t) / (x.cols + x.rows))
        ((i * (x.cols + x.rows - 1) + t) % (x.cols + x.rows)) := rfl

theorem transpose_to_rows {α : Type} (x : Mat α) (z : α) :
    (transpose_to_pipeline_stage_inputs x z).rows = x.cols + x.rows - 1 := rfl

theorem transpose_to_cols {α : Type} (x : Mat α) (z : α) :
    (transpose_to_pipeline_stage_inputs x z).cols = x.rows := rfl

theorem transpose_from_get {α : Type} (y : Mat α) (z : α) (i j : Nat) :
    (transpose_from_pipeline_stage_outputs y z).get i j =
      (if i * (y.rows - y.cols + 1 + y.cols) + j < y.cols * y.rows then
        y.get ((i * (y.rows - y.cols + 1 + y.cols) + j) % y.rows)
          ((i * (y.rows - y.cols + 1 + y.cols) + j) / y.rows)
      else z) := rfl

theorem transpose_from_rows {α : Type} (y : Mat α) (z : α) :
    (transpose_from_pipeline_stage_outputs y z).rows = y.cols := rfl

theorem transpose_from_cols {α : Type} (y : Mat α) (z : α) :
    (transpose_from_pipeline_stage_outputs y z).cols = y.rows - y.cols + 1 := rfl

/-- On the diagonal band `t = i + (t - i)` with `t - i < M`, the
pipeline-major layout reads back the layer-major entry. -/
theorem transpose_to_diag {α : Type} (x : Mat α) (z : α) {t i : Nat}
    (h1 : i ≤ t) (h2 : t - i < x.cols) :
    (transpose_to_pipeline_stage_inputs x z).get t i = x.get i (t - i) := by
  have hmn : 0 < x.cols + x.rows := by omega
  have hmul : i * (x.cols + x.rows) = i * (x.cols + x.rows - 1) + i := by
    have h3 : x.cols + x.rows - 1 + 1 = x.cols + x.rows := by omega
    calc i * (x.cols + x.rows) = i * (x.cols + x.rows - 1 + 1) := by rw [h3]
      _ = i * (x.cols + x.rows - 1) + i := Nat.mul_succ i _
  have hcomm : (x.cols + x.rows) * i = i * (x.cols + x.rows) := Nat.mul_comm _ _
  have hq : i * (x.cols + x.rows - 1) + t = (t - i) + (x.cols + x.rows) * i := by omega
  rw [transpose_to_get, hq, Nat.add_mul_div_left _ _ hmn, Nat.add_mul_mod_self_left,
    Nat.div_eq_of_lt (by omega), Nat.mod_eq_of_lt (by omega)]
  simp only [Mat.padCols, Nat.zero_add]
  rw [if_pos h2]

/-- Off the diagonal band, the pipeline-major layout holds the padding
value. -/
theorem transpose_to_invalid {α : Type} (x : Mat α) (z : α) {t i : Nat}
    (hi : i < x.rows) (ht : t < x.cols + x.rows - 1) (hm : 1 ≤ x.cols)
    (hband : t < i ∨ x.cols ≤ t - i) :
    (transpose_to_pipeline_stage_inputs x z).get t i = z := by
  have hmn : 0 < x.cols + x.rows := by omega
  rcases hband with hlt | hge
  · obtain ⟨i0, rfl⟩ : ∃ i0, i = i0 + 1 := ⟨i - 1, by omega⟩
    have hmul0 : i0 * (x.cols + x.rows) = i0 * (x.cols + x.rows - 1) + i0 := by
      have h3 : x.cols + x.rows - 1 + 1 = x.cols + x.rows := by omega
      calc i0 * (x.cols + x.rows) = i0 * (x.cols + x.rows - 1 + 1) := by rw [h3]
        _ = i0 * (x.cols + x.rows - 1) + i0 := Nat.mul_succ i0 _
    have hmul1 : (i0 + 1) * (x.cols + x.rows - 1)
        = i0 * (x.cols + x.rows - 1) + (x.cols + x.rows - 1) := Nat.succ_mul i0 _
    have hcomm : (x.cols + x.rows) * i0 = i0 * (x.cols + x.rows) := Nat.mul_comm _ _
    have hq : (i0 + 1) * (x.cols + x.rows - 1) + t =
        (x.cols + x.rows - (i0 + 1 - t)) + (x.cols + x.rows) * i0 := by omega
    rw [transpose_to_get, hq, Nat.add_mul_div_left _ _ hmn, Nat.add_mul_mod_self_left,
      Nat.div_eq_of_lt (by omega), Nat.mod_eq_of_lt (by omega)]
    simp only [Mat.padCols, Nat.zero_add]
    rw [if_neg (by omega)]
  · have h1 : i ≤ t := by omega
    have hmul : i * (x.cols + x.rows) = i * (x.cols + x.rows - 1) + i := by
      have h3 : x.cols + x.rows - 1 + 1 = x.cols + x.rows := by omega
      calc i * (x.cols + x.rows) = i * (x.cols + x.rows - 1 + 1) := by rw [h3]
        _ = i * (x.cols + x.rows - 1) + i := Nat.mul_succ i _
    have hcomm : (x.cols + x.rows) * i = i * (x.cols + x.rows) := Nat.mul_comm _ _
    have hq : i * (x.cols + x.rows - 1) + t = (t - i) + (x.cols + x.rows) * i := by omega
    rw [transpose_to_get, hq, Nat.add_mul_div_left _ _ hmn, Nat.add_mul_mod_self_left,
      Nat.div_eq_of_lt (by omega), Nat.mod_eq_of_lt (by omega)]
    simp only [Mat.padCols, Nat.zero_add]
    rw [if_neg (by omega)]

/-- In the valid region, the inverse layout transform reads the diagonal
band: `result[i, j] = x[i + j, i]`. -/
theorem transpose_from_get_in {α : Type} (y : Mat α) (z : α) {i j : Nat}
    (hc : y.cols ≤ y.rows) (hi : i < y.cols) (hj : j < y.rows - y.cols + 1) :
    (transpose_from_pipeline_stage_outputs y z).get i j = y.get (i + j) i := by
  have hT : 0 < y.rows := by omega
  have hmul : i * (y.rows - y.cols + 1 + y.cols) = i * y.rows + i := by
    have hadd : y.rows - y.cols + 1 + y.cols = y.rows + 1 := by omega
    calc i * (y.rows - y.cols + 1 + y.cols) = i * (y.rows + 1) := by rw [hadd]
      _ = i * y.rows + i := Nat.mul_succ i _
  have hij : i + j < y.rows := by omega
  have hcomm : y.rows * i = i * y.rows := Nat.mul_comm _ _
  have hk : i * (y.rows - y.cols + 1 + y.cols) + j = (i + j) + y.rows * i := by omega
  have hlt : i * (y.rows - y.cols + 1 + y.cols) + j < y.cols * y.rows := by
    have h5 : (i + 1) * y.rows ≤ y.cols * y.rows := Nat.mul_le_mul_right _ hi
    have h6 : (i + 1) * y.rows = i * y.rows + y.rows := Nat.succ_mul i _
    omega
  rw [transpose_from_get, if_pos hlt, hk, Nat.add_mul_mod_self_left,
    Nat.add_mul_div_left _ _ hT, Nat.mod_eq_of_lt hij, Nat.div_eq_of_lt hij]
  simp only [Nat.zero_add]

/-! ### Claim C1 and C2 -/

/-- Claim C1: for x of shape [N, M, ...] with N, M ≥ 1, the pipeline-major
layout has shape [M+N-1, N, ...], satisfies
`transpose_to_pipeline_stage_inputs(x)[i+j, i] = x[i, j]` on the valid
band, and holds the zero-padding value at every (t, i) with t - i outside
[0, M). -/
theorem transpose_to_diag_and_zero {α : Type} (x : Mat α) (z : α)
    (hn : 1 ≤ x.rows) (hm : 1 ≤ x.cols) :
    ((transpose_to_pipeline_stage_inputs x z).rows = x.cols + x.rows - 1 ∧
      (transpose_to_pipeline_stage_inputs x z).cols = x.rows) ∧
    (∀ i j, i < x.rows → j < x.cols →
      (transpose_to_pipeline_stage_inputs x z).get (i + j) i = x.get i j) ∧
    (∀ t i, t < x.cols + x.rows - 1 → i < x.rows → (t < i ∨ x.cols ≤ t - i) →
      (transpose_to_pipeline_stage_inputs x z).get t i = z) := by
  refine ⟨⟨rfl, rfl⟩, ?_, ?_⟩
  · intro i j hi hj
    have h := transpose_to_diag x z (show i ≤ i + j by omega)
      (show i + j - i < x.cols by omega)
    simpa using h
  · intro t i ht hi hband
    exact transpose_to_invalid x z hi ht hm hband

/-- Witness for C1 at a concrete 2×2 input. -/
theorem transpose_to_diag_and_zero_witness :
    (transpose_to_pipeline_stage_inputs (⟨2, 2, fun i j => 10 * i + j⟩ : Mat Nat) 0).get (1 + 1) 1 =
      (⟨2, 2, fun i j => 10 * i + j⟩ : Mat Nat).get 1 1 :=
  (transpose_to_diag_and_zero (⟨2, 2, fun i j => 10 * i + j⟩ : Mat Nat) 0
    (by decide) (by decide)).2.1 1 1 (by decide) (by decide)

/-- Claim C2: the layer-major → pipeline-major → layer-major round trip is
the identity on shapes and on every entry of the valid region, with no
arithmetic performed on the values. -/
theorem transpose_round_trip {α : Type} (x : Mat α) (z : α)
    (hn : 1 ≤ x.rows) (hm : 1 ≤ x.cols) :
    (transpose_from_pipeline_stage_outputs (transpose_to_pipeline_stage_inputs x z) z).rows = x.rows ∧
    (transpose_from_pipeline_stage_outputs (transpose_to_pipeline_stage_inputs x z) z).cols = x.cols ∧
    ∀ i j, i < x.rows → j < x.cols →
      (transpose_from_pipeline_stage_outputs (transpose_to_pipeline_stage_inputs x z) z).get i j
        = x.get i j := by
  refine ⟨rfl, ?_, ?_⟩
  · show (x.cols + x.rows - 1) - x.rows + 1 = x.cols
    omega
  · intro i j hi hj
    have h1 : (transpose_to_pipeline_stage_inputs x z).cols
        ≤ (transpose_to_pipeline_stage_inputs x z).rows := by
      show x.rows ≤ x.cols + x.rows - 1
      omega
    have h2 : i < (transpose_to_pipeline_stage_inputs x z).cols := hi
    have h3 : j < (transpose_to_pipeline_stage_inputs x z).rows
        - (transpose_to_pipeline_stage_inputs x z).cols + 1 := by
      show j < (x.cols + x.rows - 1) - x.rows + 1
      omega
    rw [transpose_from_get_in _ z h1 h2 h3]
    have h4 := transpose_to_diag x z (show i ≤ i + j by omega)
      (show i + j - i < x.cols by omega)
    simpa using h4

/-- Witness for C2 at a concrete 2×3 input. -/
theorem transpose_round_trip_witness :
    (transpose_from_pipeline_stage_outputs
      (transpose_to_pipeline_stage_inputs (⟨2, 3, fun i j => 10 * i + j⟩ : Mat Nat) 0) 0).get 1 2 =
      (⟨2, 3, fun i j => 10 * i + j⟩ : Mat Nat).get 1 2 :=
  (transpose_round_trip (⟨2, 3, fun i j => 10 * i + j⟩ : Mat Nat) 0
    (by decide) (by decide)).2.2 1 2 (by decide) (by decide)

/-! ### Claim C3: validity mask -/

/-- Claim C3: the mask of `Pipeline._is_valid_stage` equals
`i ≤ t ∧ t - i < M`; the number of valid (stage, timestep) pairs over the
whole loop is `N*M`; for N=3, M=2 the valid pairs are exactly
{(0,0),(1,1),(0,1),(2,2),(1,2),(2,3)}. -/
theorem validity_mask_spec (N M : Nat) (hN : 1 ≤ N) (hM : 1 ≤ M) :
    (∀ t i : Nat, t < M + N - 1 → i < N →
      (is_valid_stage M (t : Int) (i : Int) = true ↔
        ((i : Int) ≤ (t : Int) ∧ (t : Int) - (i : Int) < (M : Int)))) ∧
    (validPairs N M).card = N * M ∧
    validPairs 3 2 = {(0, 0), (1, 1), (0, 1), (2, 2), (1, 2), (2, 3)} := by
  refine ⟨?_, ?_, by decide⟩
  · intro t i _ _
    simp [is_valid_stage]
  · have himg : validPairs N M =
        (Finset.range N ×ˢ Finset.range M).image (fun p => (p.1, p.1 + p.2)) := by
      ext p
      rcases p with ⟨i, t⟩
      simp only [validPairs, Finset.mem_filter, Finset.mem_product, Finset.mem_range,
        Finset.mem_image, is_valid_stage, decide_eq_true_eq, Prod.mk.injEq, Prod.exists]
      constructor
      · rintro ⟨⟨hiN, htR⟩, hle, hlt⟩
        exact ⟨i, t - i, ⟨hiN, by omega⟩, rfl, by omega⟩
      · rintro ⟨a, b, ⟨haN, hbM⟩, rfl, rfl⟩
        refine ⟨⟨haN, by omega⟩, by omega, by omega⟩
    have hinj : Function.Injective (fun p : Nat × Nat => (p.1, p.1 + p.2)) := by
      rintro ⟨a, b⟩ ⟨c, d⟩ hpq
      simp only [Prod.mk.injEq] at hpq
      obtain ⟨h1, h2⟩ := hpq
      simp only [Prod.mk.injEq]
      omega
    rw [himg, Finset.card_image_of_injective _ hinj, Finset.card_product,
      Finset.card_range, Finset.card_range]

/-- Witness for C3 at N=3, M=2. -/
theorem validity_mask_spec_witness : (validPairs 3 2).card = 3 * 2 :=
  (validity_mask_spec 3 2 (by decide) (by decide)).2.1

/-! ### Entry validation of `Pipeline._run` (claims C9, C10)

`Pipeline._run` (pipeline.py lines 208-224) flattens the carry into its
list of tensor leaves (`jax.tree_util.tree_leaves`, which maps `None` to
the empty list), raises `ValueError("Expected at least one input leaf.")`
when there are no leaves, raises a shape error when the FIRST leaf has
fewer than 2 dimensions, and only then reaches the `if carry is None`
fallback that substitutes an empty carry. Leaves are embedded by their
shape tuple. -/

/-- A tensor leaf, identified by its shape tuple. -/
structure LeafSpec where
  shape : List Nat
deriving DecidableEq

/-- `ndim` of a leaf. -/
def LeafSpec.ndim (l : LeafSpec) : Nat := l.shape.length

/-- `jax.tree_util.tree_leaves(carry)`: `None` has no leaves. -/
def tree_leaves (carry : Option (List LeafSpec)) : List LeafSpec :=
  match carry with
  | none => []
  | some ls => ls

/-- The entry validation and carry-fallback prefix of `Pipeline._run`
(pipeline.py lines 208-224), returning the effective carry leaves and the
inferred number of microbatches `m = carry_leaves[0].shape[0]` on
success. -/
def run_entry_check (carry : Option (List LeafSpec)) :
    Except String (List LeafSpec × Nat) :=
  match tree_leaves carry with
  | [] => Except.error "Expected at least one input leaf."
  | l0 :: _ =>
    if l0.ndim < 2 then
      Except.error
        ("Expected leaves to have shape [num_microbatches, microbatch_size, ...]; instead, found "
          ++ toString l0.shape)
    else
      Except.ok (if carry.isNone then [] else tree_leaves carry, l0.shape.headD 0)

/-- Claim C9 counterexample: a carry whose FIRST leaf is rank 2 but whose
second leaf is rank 0 passes the entry validation (the code checks only
`carry_leaves[0].ndim`), so the claim "any carry leaf is scalar/rank-0 →
the call fails at entry" is false as stated. -/
theorem entry_check_cex :
    (∃ l ∈ tree_leaves (some [⟨[4, 3]⟩, ⟨[]⟩]), l.ndim = 0) ∧
    run_entry_check (some [⟨[4, 3]⟩, ⟨[]⟩]) =
      Except.ok ([⟨[4, 3]⟩, ⟨[]⟩], 4) := by
  constructor
  · exact ⟨⟨[]⟩, by decide, rfl⟩
  · rfl

/-- Claim C9 (amended): if the carry has no leaves, or its FIRST leaf has
fewer than 2 dimensions, `Pipeline._run` fails at entry — before the scan
loop — with the corresponding descriptive shape-contract error. -/
theorem entry_check_amended (carry : Option (List LeafSpec)) :
    (tree_leaves carry = [] →
      run_entry_check carry = Except.error "Expected at least one input leaf.") ∧
    (∀ l0 rest, tree_leaves carry = l0 :: rest → l0.ndim < 2 →
      run_entry_check carry = Except.error
        ("Expected leaves to have shape [num_microbatches, microbatch_size, ...]; instead, found "
          ++ toString l0.shape)) := by
  constructor
  · intro h
    unfold run_entry_check
    rw [h]
  · intro l0 rest h hnd
    unfold run_entry_check
    rw [h]
    simp [hnd]

/-- Witness for the amended C9: a single rank-0 carry leaf is rejected at
entry with the shape-contract error. -/
theorem entry_check_amended_witness :
    run_entry_check (some [⟨[]⟩]) = Except.error
      ("Expected leaves to have shape [num_microbatches, microbatch_size, ...]; instead, found "
        ++ toString ([] : List Nat)) :=
  (entry_check_amended (some [⟨[]⟩])).2 ⟨[]⟩ [] rfl (by decide)

/-- Claim C10: `carry=None` (and any carry with no leaves) is rejected
with `ValueError("Expected at least one input leaf.")`, so the
`if carry is None` fallback is unreachable: every successful call has a
nonempty `some` carry, and the returned leaves are the caller's, never the
substituted empty carry. -/
theorem carry_none_rejected :
    run_entry_check none = Except.error "Expected at least one input leaf." ∧
    (∀ carry, tree_leaves carry = [] →
      run_entry_check carry = Except.error "Expected at least one input leaf.") ∧
    (∀ carry r, run_entry_check carry = Except.ok r →
      carry ≠ none ∧ ∃ l0 rest, carry = some (l0 :: rest) ∧ r.1 = l0 :: rest) := by
  refine ⟨rfl, ?_, ?_⟩
  · intro carry h
    unfold run_entry_check
    rw [h]
  · intro carry r hok
    cases carry with
    | none => simp [run_entry_check, tree_leaves] at hok
    | some ls =>
      cases ls with
      | nil => simp [run_entry_check, tree_leaves] at hok
      | cons l0 rest =>
        refine ⟨by simp, l0, rest, rfl, ?_⟩
        by_cases hnd : l0.ndim < 2
        · simp [run_entry_check, tree_leaves, hnd] at hok
        · simp [run_entry_check, tree_leaves, hnd] at hok
          rw [← hok]

/-- Witness for C10 at a concrete nonempty carry. -/
theorem carry_none_rejected_witness :
    some [(⟨[5, 2]⟩ : LeafSpec)] ≠ none ∧
    ∃ l0 rest, some [(⟨[5, 2]⟩ : LeafSpec)] = some (l0 :: rest) ∧
      (([⟨[5, 2]⟩], 5) : List LeafSpec × Nat).1 = l0 :: rest :=
  carry_none_rejected.2.2 (some [⟨[5, 2]⟩]) ([⟨[5, 2]⟩], 5) rfl

/-! ### The scheduler loop of `Pipeline._run`

The carry is embedded as one leaf whose per-stage / per-microbatch value
has type `α`; the stage computation `fn` takes (carry, x) and returns
(carry, y). The `jnp.where(is_valid, x, stop_gradient(x))` parameter
masking of the source is a forward-pass identity and is not modelled (only
forward semantics are embedded). PRNG keys and output collections are
orthogonal side channels and are omitted. -/

/-- The `lax.scan` loop state of `Pipeline._run` (pipeline.py lines
339-342, 375-384). -/
structure ScanState (α : Type) where
  t : Nat
  carry_output_t_1 : Nat → α
  per_stage_inputs : Mat α

/-- One timestep's stacked scan output (`dict(carry=..., y=...)`). -/
structure StepOut (α : Type) where
  carry : Nat → α
  y : Nat → α

/-- `pad_carry` (pipeline.py lines 240-254): `[M, ...] → [M, N, ...]` with
only stage slot 0 populated, the rest zero-filled. -/
def pad_carry {α : Type} (m n : Nat) (z : α) (carry0 : Nat → α) : Mat α :=
  ⟨m, 1 + (n - 1), fun j k => if k < 1 then carry0 j else z⟩

/-- The shift-right along the stage axis inside `select_state_or_input`
(pipeline.py lines 478-483): `jnp.pad` a zero row at stage 0 then
`lax.slice` back to the original shape, dropping the last stage's slot. -/
def shift_right_stages {α : Type} (z : α) (v : Nat → α) (k : Nat) : α :=
  if k = 0 then z else v (k - 1)

/-- `select_state_or_input` (pipeline.py lines 473-492): stage 0 reads
`per_stage_inputs[t % m][0]`; stages k > 0 read the shifted previous carry
(`jnp.where(iota == 0, v_input_t, shifted)`). -/
def select_state_or_input {α : Type} (m : Nat) (z : α) (t : Nat)
    (v_input_t : Mat α) (v_carry_output_t_1 : Nat → α) (k : Nat) : α :=
  if k = 0 then v_input_t.get (t % m) k else shift_right_stages z v_carry_output_t_1 k

/-- `Pipeline._compute_carry_input` (pipeline.py lines 449-494). -/
def compute_carry_input {α : Type} (m : Nat) (z : α) (per_stage_inputs : Mat α)
    (carry_output_t_1 : Nat → α) (t : Nat) : Nat → α :=
  fun k => select_state_or_input m z t per_stage_inputs carry_output_t_1 k

/-- `scan_fn` (pipeline.py lines 307-373): one timestep, all stages in
parallel; emits the per-stage carry and y outputs and advances the state. -/
def scan_fn {α : Type} (m : Nat) (fn : α → α → α × α) (z : α)
    (s : ScanState α) (x_t : Nat → α) : ScanState α × StepOut α :=
  let vmap_in := compute_carry_input m z s.per_stage_inputs s.carry_output_t_1 s.t
  let out := fun k => fn (vmap_in k) (x_t k)
  (⟨s.t + 1, fun k => (out k).1, s.per_stage_inputs⟩,
   ⟨fun k => (out k).1, fun k => (out k).2⟩)

/-- `jax.lax.scan`: thread the state through the list of per-timestep
inputs, stacking the per-timestep outputs. -/
def scanList {σ ι ο : Type} (f : σ → ι → σ × ο) : σ → List ι → σ × List ο
  | s, [] => (s, [])
  | s, x :: xs =>
    let fx := f s x
    let rest := scanList f fx.1 xs
    (rest.1, fx.2 :: rest.2)

/-- `state_t0` (pipeline.py lines 375-384): `t = 0`, zero-filled previous
carry outputs, and the padded per-stage inputs. -/
def init_state {α : Type} (z : α) (psi : Mat α) : ScanState α :=
  ⟨0, fun _ => z, psi⟩

/-- The leading-axis slices a scan iterates over. -/
def mat_rows {α : Type} (x : Mat α) : List (Nat → α) :=
  (List.range x.rows).map (fun t k => x.get t k)

/-- The scan of `Pipeline._run` (pipeline.py line 392): scan `scan_fn`
from `state_t0` over the pipeline-major `padded_xs`. -/
def pipelineScan {α : Type} (n m : Nat) (fn : α → α → α × α) (z : α)
    (carry0 : Nat → α) (xs : Mat α) : ScanState α × List (StepOut α) :=
  scanList (scan_fn m fn z) (init_state z (pad_carry m n z carry0))
    (mat_rows (transpose_to_pipeline_stage_inputs xs z))

/-- Out-of-range default for reading the stacked scan outputs. -/
def stepOutDefault {α : Type} (z : α) : StepOut α := ⟨fun _ => z, fun _ => z⟩

/-- The stacked per-timestep carry outputs `scan_ys["carry"]` of shape
`[M+N-1, N, ...]`. -/
def carryStack {α : Type} (n m : Nat) (fn : α → α → α × α) (z : α)
    (carry0 : Nat → α) (xs : Mat α) : Mat α :=
  ⟨m + n - 1, n, fun t k =>
    ((pipelineScan n m fn z carry0 xs).2.getD t (stepOutDefault z)).carry k⟩

/-- The stacked per-timestep y outputs `scan_ys["y"]` of shape
`[M+N-1, N, ...]`. -/
def yStack {α : Type} (n m : Nat) (fn : α → α → α × α) (z : α)
    (carry0 : Nat → α) (xs : Mat α) : Mat α :=
  ⟨m + n - 1, n, fun t k =>
    ((pipelineScan n m fn z carry0 xs).2.getD t (stepOutDefault z)).y k⟩

/-- `extract_outputs` (pipeline.py lines 394-402):
`jnp.squeeze(jax.lax.slice(x, [n - 1, x.shape[1] - 1, 0, ...], x.shape), 1)`
— keep timesteps `n-1, ..., rows-1` and only the last stage, then squeeze
the singleton stage axis. -/
def extract_outputs {α : Type} (n : Nat) (x : Mat α) : Vec α :=
  ⟨x.rows - (n - 1), fun j => x.get (n - 1 + j) (x.cols - 1)⟩

/-- The final carry of `Pipeline._run` (pipeline.py lines 404-406). -/
def finalCarry {α : Type} (n m : Nat) (fn : α → α → α × α) (z : α)
    (carry0 : Nat → α) (xs : Mat α) : Vec α :=
  extract_outputs n (carryStack n m fn z carry0 xs)

/-- The per-layer outputs of `Pipeline._run` (pipeline.py lines 408-419):
the stacked y outputs transposed back to layer-major `[N, M, ...]`. -/
def pipelineYs {α : Type} (n m : Nat) (fn : α → α → α × α) (z : α)
    (carry0 : Nat → α) (xs : Mat α) : Mat α :=
  transpose_from_pipeline_stage_outputs (yStack n m fn z carry0 xs) z

/-- The extraction the spec's words for claim C6 describe: slice the
stacked carry at the last stage AND at the single final timestep, then
squeeze the singleton axis. Stated from the spec, for comparison with
`extract_outputs` from the source. -/
def extract_outputs_claim_spec {α : Type} (x : Mat α) : Vec α :=
  ⟨1, fun _ => x.get (x.rows - 1) (x.cols - 1)⟩

/-- The state reached after `k` scan steps (proof-side view of the scan's
threading of state). -/
def iterFold {σ ι ο : Type} (f : σ → ι → σ × ο) (g : Nat → ι) (s : σ) : Nat → σ
  | 0 => s
  | k + 1 => (f (iterFold f g s k) (g k)).1

/-- Row `t` of the pipeline-major inputs. -/
def pipelineRowf {α : Type} (z : α) (xs : Mat α) (t : Nat) : Nat → α :=
  fun k => (transpose_to_pipeline_stage_inputs xs z).get t k

/-- The scan state of `pipelineScan` before timestep `t` executes. -/
def pipelineState {α : Type} (n m : Nat) (fn : α → α → α × α) (z : α)
    (carry0 : Nat → α) (xs : Mat α) (t : Nat) : ScanState α :=
  iterFold (scan_fn m fn z) (pipelineRowf z xs)
    (init_state z (pad_carry m n z carry0)) t

/-- The vmap carry input fed to the stages at timestep `t`. -/
def pipelineVmapIn {α : Type} (n m : Nat) (fn : α → α → α × α) (z : α)
    (carry0 : Nat → α) (xs : Mat α) (t : Nat) : Nat → α :=
  compute_carry_input m z (pipelineState n m fn z carry0 xs t).per_stage_inputs
    (pipelineState n m fn z carry0 xs t).carry_output_t_1
    (pipelineState n m fn z carry0 xs t).t

/-! ### Scan lemmas -/

theorem scanList_length {σ ι ο : Type} (f : σ → ι → σ × ο) :
    ∀ (l : List ι) (s : σ), (scanList f s l).2.length = l.length := by
  intro l
  induction l with
  | nil => intro s; rfl
  | cons x xs ih => intro s; simp [scanList, ih]

theorem scanList_append_fst {σ ι ο : Type} (f : σ → ι → σ × ο) :
    ∀ (l1 l2 : List ι) (s : σ),
      (scanList f s (l1 ++ l2)).1 = (scanList f (scanList f s l1).1 l2).1 := by
  intro l1
  induction l1 with
  | nil => intro l2 s; simp [scanList]
  | cons x xs ih => intro l2 s; simp [scanList, ih]

theorem scanList_getD {σ ι ο : Type} (f : σ → ι → σ × ο) (dο : ο) (dι : ι) :
    ∀ (l : List ι) (s : σ) (i : Nat), i < l.length →
      (scanList f s l).2.getD i dο = (f (scanList f s (l.take i)).1 (l.getD i dι)).2 := by
  intro l
  induction l with
  | nil => intro s i hi; simp at hi
  | cons x xs ih =>
    intro s i hi
    cases i with
    | zero => simp [scanList]
    | succ i =>
      have hi2 : i < xs.length := by simpa using hi
      simpa [scanList, List.getD_cons_succ, List.take_succ_cons] using ih (f s x).1 i hi2

theorem scanList_range_map_fst {σ ι ο : Type} (f : σ → ι → σ × ο) (g : Nat → ι) (s : σ) :
    ∀ k, (scanList f s ((List.range k).map g)).1 = iterFold f g s k := by
  intro k
  induction k with
  | zero => rfl
  | succ k ih =>
    rw [List.range_succ, List.map_append, scanList_append_fst]
    simp [scanList, iterFold, ih]

theorem take_range_map {β : Type} (g : Nat → β) :
    ∀ (L t : Nat), t ≤ L → ((List.range L).map g).take t = (List.range t).map g := by
  intro L
  induction L with
  | zero =>
    intro t ht
    have : t = 0 := by omega
    subst this
    rfl
  | succ L ih =>
    intro t ht
    by_cases h : t ≤ L
    · rw [List.range_succ, List.map_append,
        List.take_append_of_le_length (by simpa using h), ih t h]
    · have ht2 : t = L + 1 := by omega
      subst ht2
      rw [List.take_of_length_le (by simp)]

theorem getD_range_map {β : Type} (g : Nat → β) (d : β) (L t : Nat) (ht : t < L) :
    ((List.range L).map g).getD t d = g t := by
  have h1 : ((List.range L).map g)[t]? = some (g t) := by
    rw [List.getElem?_map, List.getElem?_range ht]
    rfl
  simp [List.getD_eq_getElem?_getD, h1]

/-! ### Pipeline state lemmas -/

theorem pipelineState_succ {α : Type} (n m : Nat) (fn : α → α → α × α) (z : α)
    (carry0 : Nat → α) (xs : Mat α) (t : Nat) :
    pipelineState n m fn z carry0 xs (t + 1) =
      (scan_fn m fn z (pipelineState n m fn z carry0 xs t) (pipelineRowf z xs t)).1 := rfl

theorem pipelineState_t {α : Type} (n m : Nat) (fn : α → α → α × α) (z : α)
    (carry0 : Nat → α) (xs : Mat α) :
    ∀ t, (pipelineState n m fn z carry0 xs t).t = t := by
  intro t
  induction t with
  | zero => rfl
  | succ t ih => simp [pipelineState_succ, scan_fn, ih]

theorem pipelineState_psi {α : Type} (n m : Nat) (fn : α → α → α × α) (z : α)
    (carry0 : Nat → α) (xs : Mat α) :
    ∀ t, (pipelineState n m fn z carry0 xs t).per_stage_inputs = pad_carry m n z carry0 := by
  intro t
  induction t with
  | zero => rfl
  | succ t ih => simp [pipelineState_succ, scan_fn, ih]

theorem pipelineState_carry_succ {α : Type} (n m : Nat) (fn : α → α → α × α) (z : α)
    (carry0 : Nat → α) (xs : Mat α) (t : Nat) :
    (pipelineState n m fn z carry0 xs (t + 1)).carry_output_t_1 =
      fun k => (fn (pipelineVmapIn n m fn z carry0 xs t k) (pipelineRowf z xs t k)).1 := rfl

theorem pipelineVmapIn_eq {α : Type} (n m : Nat) (fn : α → α → α × α) (z : α)
    (carry0 : Nat → α) (xs : Mat α) (t : Nat) :
    pipelineVmapIn n m fn z carry0 xs t =
      compute_carry_input m z (pad_carry m n z carry0)
        (pipelineState n m fn z carry0 xs t).carry_output_t_1 t := by
  unfold pipelineVmapIn
  rw [pipelineState_psi, pipelineState_t]

theorem pipelineVmapIn_zero_stage {α : Type} (n m : Nat) (fn : α → α → α × α) (z : α)
    (carry0 : Nat → α) (xs : Mat α) (t : Nat) :
    pipelineVmapIn n m fn z carry0 xs t 0 = carry0 (t % m) := by
  rw [pipelineVmapIn_eq]
  simp [compute_carry_input, select_state_or_input, pad_carry]

theorem pipelineVmapIn_succ_stage {α : Type} (n m : Nat) (fn : α → α → α × α) (z : α)
    (carry0 : Nat → α) (xs : Mat α) (t k : Nat) :
    pipelineVmapIn n m fn z carry0 xs (t + 1) (k + 1) =
      (fn (pipelineVmapIn n m fn z carry0 xs t k) (pipelineRowf z xs t k)).1 := by
  rw [pipelineVmapIn_eq]
  simp [compute_carry_input, select_state_or_input, shift_right_stages,
    pipelineState_carry_succ]

/-- Bridging the stacked scan outputs to the per-timestep step function. -/
theorem pipelineScan_getD {α : Type} (n m : Nat) (fn : α → α → α × α) (z : α)
    (carry0 : Nat → α) (xs : Mat α) (t : Nat) (ht : t < xs.cols + xs.rows - 1) :
    (pipelineScan n m fn z carry0 xs).2.getD t (stepOutDefault z) =
      (scan_fn m fn z (pipelineState n m fn z carry0 xs t) (pipelineRowf z xs t)).2 := by
  have hrows : (transpose_to_pipeline_stage_inputs xs z).rows = xs.cols + xs.rows - 1 := rfl
  have hlen : t < ((List.range (transpose_to_pipeline_stage_inputs xs z).rows).map
      (fun t k => (transpose_to_pipeline_stage_inputs xs z).get t k)).length := by
    simpa [hrows] using ht
  unfold pipelineScan mat_rows
  rw [scanList_getD (scan_fn m fn z) (stepOutDefault z) (fun _ => z) _ _ t hlen,
    take_range_map _ _ t (by omega : t ≤ (transpose_to_pipeline_stage_inputs xs z).rows),
    getD_range_map _ _ _ t (by omega : t < (transpose_to_pipeline_stage_inputs xs z).rows),
    scanList_range_map_fst]
  rfl

/-- With the identity pass-through stage computation, the vmap input of
stage `i` at timestep `i + j` is microbatch `j` of the original carry. -/
theorem pipelineVmapIn_ident {α : Type} (n m : Nat) (z : α) (carry0 : Nat → α)
    (xs : Mat α) :
    ∀ i j, j < m →
      pipelineVmapIn n m (fun c _ => (c, c)) z carry0 xs (i + j) i = carry0 j := by
  intro i
  induction i with
  | zero =>
    intro j hj
    have h0 : (0 : Nat) + j = j := Nat.zero_add j
    rw [h0, pipelineVmapIn_zero_stage, Nat.mod_eq_of_lt hj]
  | succ i ih =>
    intro j hj
    have h : i + 1 + j = (i + j) + 1 := by omega
    rw [h, pipelineVmapIn_succ_stage]
    exact ih j hj

/-- Valid (stage, timestep) pairs never read the bubble filler: the vmap
input at stage `k`, timestep `t` with `k ≤ t` and `t - k < m` is
independent of the padding value `z`. -/
theorem pipelineVmapIn_filler {α : Type} (n m : Nat) (fn : α → α → α × α)
    (z1 z2 : α) (carry0 : Nat → α) (xs : Mat α) (hxc : xs.cols = m) :
    ∀ k t, k ≤ t → t - k < m →
      pipelineVmapIn n m fn z1 carry0 xs t k = pipelineVmapIn n m fn z2 carry0 xs t k := by
  intro k
  induction k with
  | zero =>
    intro t _ _
    rw [pipelineVmapIn_zero_stage, pipelineVmapIn_zero_stage]
  | succ k ih =>
    intro t hk ht
    obtain ⟨t0, rfl⟩ : ∃ t0, t = t0 + 1 := ⟨t - 1, by omega⟩
    rw [pipelineVmapIn_succ_stage, pipelineVmapIn_succ_stage]
    have hx : pipelineRowf z1 xs t0 k = pipelineRowf z2 xs t0 k := by
      show (transpose_to_pipeline_stage_inputs xs z1).get t0 k
        = (transpose_to_pipeline_stage_inputs xs z2).get t0 k
      rw [transpose_to_diag xs z1 (by omega) (by omega),
        transpose_to_diag xs z2 (by omega) (by omega)]
    rw [ih t0 (by omega) (by omega), hx]

/-! ### Claims C4-C8 -/

/-- Claim C4: with the identity carry pass-through stage computation
`fn(carry, x) = (carry, carry)`, every extracted per-layer output
`ys[i, j]` equals the original input microbatch `j` unchanged. -/
theorem identity_passthrough_ys {α : Type} (n m : Nat) (z : α) (carry0 : Nat → α)
    (xs : Mat α) (hxr : xs.rows = n) (hxc : xs.cols = m) (hn : 1 ≤ n) (hm : 1 ≤ m)
    (i j : Nat) (hi : i < n) (hj : j < m) :
    (pipelineYs n m (fun c _ => (c, c)) z carry0 xs).get i j = carry0 j := by
  unfold pipelineYs
  have h1 : (yStack n m (fun c _ => (c, c)) z carry0 xs).cols
      ≤ (yStack n m (fun c _ => (c, c)) z carry0 xs).rows := by
    show n ≤ m + n - 1
    omega
  have h2 : i < (yStack n m (fun c _ => (c, c)) z carry0 xs).cols := hi
  have h3 : j < (yStack n m (fun c _ => (c, c)) z carry0 xs).rows
      - (yStack n m (fun c _ => (c, c)) z carry0 xs).cols + 1 := by
    show j < (m + n - 1) - n + 1
    omega
  rw [transpose_from_get_in _ z h1 h2 h3]
  show ((pipelineScan n m (fun c _ => (c, c)) z carry0 xs).2.getD (i + j)
    (stepOutDefault z)).y i = carry0 j
  rw [pipelineScan_getD _ _ _ _ _ _ _ (by omega)]
  show ((fun c _ => (c, c))
      (pipelineVmapIn n m (fun c _ => (c, c)) z carry0 xs (i + j) i)
      (pipelineRowf z xs (i + j) i)).2 = carry0 j
  exact pipelineVmapIn_ident n m z carry0 xs i j hj

/-- Witness for C4 at N=2, M=2, stage 1, microbatch 1. -/
theorem identity_passthrough_ys_witness :
    (pipelineYs 2 2 (fun c _ => (c, c)) (0 : Nat) (fun j => j + 5)
      ⟨2, 2, fun _ _ => 0⟩).get 1 1 = 1 + 5 :=
  identity_passthrough_ys 2 2 0 (fun j => j + 5) ⟨2, 2, fun _ _ => 0⟩
    rfl rfl (by decide) (by decide) 1 1 (by decide) (by decide)

/-- Claim C5: at every timestep `t`, the carry/input selector gives stage 0
the value `per_stage_inputs[t % M][0]` and every stage `k > 0` the previous
timestep's carry output of stage `k-1`, realized by the right-shift along
the stage axis that inserts a zero-filled slot at index 0 (the last slot
being dropped by the slice back to the original stage extent). -/
theorem carry_input_selector_spec {α : Type} (m : Nat) (z : α) (psi : Mat α)
    (cp : Nat → α) (t : Nat) :
    compute_carry_input m z psi cp t 0 = psi.get (t % m) 0 ∧
    (∀ k, k ≠ 0 → compute_carry_input m z psi cp t k = shift_right_stages z cp k) ∧
    shift_right_stages z cp 0 = z ∧
    (∀ k, k ≠ 0 → shift_right_stages z cp k = cp (k - 1)) := by
  refine ⟨rfl, ?_, rfl, ?_⟩
  · intro k hk
    simp [compute_carry_input, select_state_or_input, hk]
  · intro k hk
    simp [shift_right_stages, hk]

/-- Witness for C5: stage 1 reads the previous carry output of stage 0. -/
theorem carry_input_selector_spec_witness :
    compute_carry_input 2 (0 : Nat) ⟨2, 3, fun j k => 10 * j + k⟩
      (fun k => 100 + k) 3 1 = shift_right_stages 0 (fun k => 100 + k) 1 :=
  (carry_input_selector_spec 2 0 ⟨2, 3, fun j k => 10 * j + k⟩
    (fun k => 100 + k) 3).2.1 1 (by decide)

/-- Claim C6 counterexample: the final carry is NOT obtained by slicing the
stacked carry at the single final timestep and squeezing (which would have
leading dimension 1): at N=1, M=2 the code's extraction has leading
dimension M=2 while the spec-worded extraction has leading dimension 1. -/
theorem final_carry_extraction_cex :
    finalCarry 1 2 (fun c _ => (c, c)) (0 : Nat) (fun j => j + 10) ⟨1, 2, fun _ _ => 0⟩ ≠
      extract_outputs_claim_spec
        (carryStack 1 2 (fun c _ => (c, c)) (0 : Nat) (fun j => j + 10) ⟨1, 2, fun _ _ => 0⟩) := by
  intro h
  have hlen := congrArg Vec.len h
  simp [finalCarry, extract_outputs, extract_outputs_claim_spec, carryStack] at hlen

/-- Claim C6 (amended): the final carry is obtained from the stacked
per-timestep carry outputs purely by static slicing at the last stage
(index N-1) over the final M timesteps `t = N-1, ..., M+N-2`, then
squeezing the now-singleton stage axis; the result has leading dimension M,
entry `j` is stage N-1's carry output at timestep `N-1+j`, entry `M-1` is
stage N-1's carry at the final timestep, and under the identity stage
computation entry `j` is microbatch `j` after flowing through all N
stages. -/
theorem final_carry_extraction_amended {α : Type} (n m : Nat) (fn : α → α → α × α)
    (z : α) (carry0 : Nat → α) (xs : Mat α) (hxr : xs.rows = n) (hxc : xs.cols = m)
    (hn : 1 ≤ n) (hm : 1 ≤ m) :
    (finalCarry n m fn z carry0 xs).len = m ∧
    (∀ j, (finalCarry n m fn z carry0 xs).get j =
      (carryStack n m fn z carry0 xs).get (n - 1 + j) (n - 1)) ∧
    (finalCarry n m fn z carry0 xs).get (m - 1) =
      (carryStack n m fn z carry0 xs).get (m + n - 2) (n - 1) ∧
    (∀ j, j < m →
      (finalCarry n m (fun c _ => (c, c)) z carry0 xs).get j = carry0 j) := by
  refine ⟨?_, fun j => rfl, ?_, ?_⟩
  · show (m + n - 1) - (n - 1) = m
    omega
  · have he : m + n - 2 = n - 1 + (m - 1) := by omega
    rw [he]
    rfl
  · intro j hj
    show ((pipelineScan n m (fun c _ => (c, c)) z carry0 xs).2.getD (n - 1 + j)
      (stepOutDefault z)).carry (n - 1) = carry0 j
    rw [pipelineScan_getD _ _ _ _ _ _ _ (by omega)]
    show ((fun c _ => (c, c))
        (pipelineVmapIn n m (fun c _ => (c, c)) z carry0 xs (n - 1 + j) (n - 1))
        (pipelineRowf z xs (n - 1 + j) (n - 1))).1 = carry0 j
    exact pipelineVmapIn_ident n m z carry0 xs (n - 1) j hj

/-- Witness for the amended C6 at N=2, M=2 with the identity stage
computation. -/
theorem final_carry_extraction_amended_witness :
    (finalCarry 2 2 (fun c _ => (c, c)) (0 : Nat) (fun j => j + 7)
      ⟨2, 2, fun _ _ => 0⟩).get 1 = 1 + 7 :=
  (final_carry_extraction_amended 2 2 (fun c _ => (c, c)) 0 (fun j => j + 7)
    ⟨2, 2, fun _ _ => 0⟩ rfl rfl (by decide) (by decide)).2.2.2 1 (by decide)

/-- Claim C7: the scheduler's results on the valid region (final carry and
every ys entry) are identical for any two bubble filler values: valid
entries never read bubble content. This holds for every stage computation
`fn` (the same in both runs), which subsumes the claim's
identity-no-op-on-invalid-steps proviso. -/
theorem bubble_filler_invariance {α : Type} (n m : Nat) (fn : α → α → α × α)
    (z1 z2 : α) (carry0 : Nat → α) (xs : Mat α) (hxr : xs.rows = n) (hxc : xs.cols = m)
    (hn : 1 ≤ n) (hm : 1 ≤ m) :
    (finalCarry n m fn z1 carry0 xs).len = (finalCarry n m fn z2 carry0 xs).len ∧
    (∀ j, j < m →
      (finalCarry n m fn z1 carry0 xs).get j = (finalCarry n m fn z2 carry0 xs).get j) ∧
    (pipelineYs n m fn z1 carry0 xs).rows = (pipelineYs n m fn z2 carry0 xs).rows ∧
    (pipelineYs n m fn z1 carry0 xs).cols = (pipelineYs n m fn z2 carry0 xs).cols ∧
    (∀ i j, i < n → j < m →
      (pipelineYs n m fn z1 carry0 xs).get i j = (pipelineYs n m fn z2 carry0 xs).get i j) := by
  refine ⟨rfl, ?_, rfl, rfl, ?_⟩
  · intro j hj
    show ((pipelineScan n m fn z1 carry0 xs).2.getD (n - 1 + j) (stepOutDefault z1)).carry (n - 1)
      = ((pipelineScan n m fn z2 carry0 xs).2.getD (n - 1 + j) (stepOutDefault z2)).carry (n - 1)
    rw [pipelineScan_getD _ _ _ _ _ _ _ (by omega), pipelineScan_getD _ _ _ _ _ _ _ (by omega)]
    show (fn (pipelineVmapIn n m fn z1 carry0 xs (n - 1 + j) (n - 1))
        (pipelineRowf z1 xs (n - 1 + j) (n - 1))).1
      = (fn (pipelineVmapIn n m fn z2 carry0 xs (n - 1 + j) (n - 1))
        (pipelineRowf z2 xs (n - 1 + j) (n - 1))).1
    have hx : pipelineRowf z1 xs (n - 1 + j) (n - 1) = pipelineRowf z2 xs (n - 1 + j) (n - 1) := by
      show (transpose_to_pipeline_stage_inputs xs z1).get (n - 1 + j) (n - 1)
        = (transpose_to_pipeline_stage_inputs xs z2).get (n - 1 + j) (n - 1)
      rw [transpose_to_diag xs z1 (by omega) (by omega),
        transpose_to_diag xs z2 (by omega) (by omega)]
    rw [pipelineVmapIn_filler n m fn z1 z2 carry0 xs hxc (n - 1) (n - 1 + j)
      (by omega) (by omega), hx]
  · intro i j hi hj
    unfold pipelineYs
    have h1a : (yStack n m fn z1 carry0 xs).cols ≤ (yStack n m fn z1 carry0 xs).rows := by
      show n ≤ m + n - 1
      omega
    have h2a : i < (yStack n m fn z1 carry0 xs).cols := hi
    have h3a : j < (yStack n m fn z1 carry0 xs).rows - (yStack n m fn z1 carry0 xs).cols + 1 := by
      show j < (m + n - 1) - n + 1
      omega
    have h1b : (yStack n m fn z2 carry0 xs).cols ≤ (yStack n m fn z2 carry0 xs).rows := by
      show n ≤ m + n - 1
      omega
    have h2b : i < (yStack n m fn z2 carry0 xs).cols := hi
    have h3b : j < (yStack n m fn z2 carry0 xs).rows - (yStack n m fn z2 carry0 xs).cols + 1 := by
      show j < (m + n - 1) - n + 1
      omega
    rw [transpose_from_get_in _ z1 h1a h2a h3a, transpose_from_get_in _ z2 h1b h2b h3b]
    show ((pipelineScan n m fn z1 carry0 xs).2.getD (i + j) (stepOutDefault z1)).y i
      = ((pipelineScan n m fn z2 carry0 xs).2.getD (i + j) (stepOutDefault z2)).y i
    rw [pipelineScan_getD _ _ _ _ _ _ _ (by omega), pipelineScan_getD _ _ _ _ _ _ _ (by omega)]
    show (fn (pipelineVmapIn n m fn z1 carry0 xs (i + j) i) (pipelineRowf z1 xs (i + j) i)).2
      = (fn (pipelineVmapIn n m fn z2 carry0 xs (i + j) i) (pipelineRowf z2 xs (i + j) i)).2
    have hx : pipelineRowf z1 xs (i + j) i = pipelineRowf z2 xs (i + j) i := by
      show (transpose_to_pipeline_stage_inputs xs z1).get (i + j) i
        = (transpose_to_pipeline_stage_inputs xs z2).get (i + j) i
      rw [transpose_to_diag xs z1 (by omega) (by omega),
        transpose_to_diag xs z2 (by omega) (by omega)]
    rw [pipelineVmapIn_filler n m fn z1 z2 carry0 xs hxc i (i + j) (by omega) (by omega), hx]

/-- Witness for C7: two different fillers, same result entry, at N=2, M=2
with a non-trivial stage computation. -/
theorem bubble_filler_invariance_witness :
    (finalCarry 2 2 (fun c x => (c + x, c * x)) (3 : Nat) (fun j => j + 1)
      ⟨2, 2, fun i j => 10 * i + j⟩).get 0 =
    (finalCarry 2 2 (fun c x => (c + x, c * x)) (4 : Nat) (fun j => j + 1)
      ⟨2, 2, fun i j => 10 * i + j⟩).get 0 :=
  (bubble_filler_invariance 2 2 (fun c x => (c + x, c * x)) 3 4 (fun j => j + 1)
    ⟨2, 2, fun i j => 10 * i + j⟩ rfl rfl (by decide) (by decide)).2.1 0 (by decide)

/-- Claim C8: the scheduler loop performs exactly M+N-1 sequential
timestep transitions (the scan output has length M+N-1 and the loop
counter ends at M+N-1 having started at 0), and each transition takes
`(t, carry, per_stage_inputs)` to `(t+1, new_carry, per_stage_inputs)`. -/
theorem scheduler_step_count {α : Type} (n m : Nat) (fn : α → α → α × α) (z : α)
    (carry0 : Nat → α) (xs : Mat α) (hxr : xs.rows = n) (hxc : xs.cols = m) :
    (pipelineScan n m fn z carry0 xs).2.length = m + n - 1 ∧
    (pipelineScan n m fn z carry0 xs).1.t = m + n - 1 ∧
    (init_state z (pad_carry m n z carry0)).t = 0 ∧
    (∀ (s : ScanState α) (x : Nat → α),
      (scan_fn m fn z s x).1.t = s.t + 1 ∧
      (scan_fn m fn z s x).1.per_stage_inputs = s.per_stage_inputs) := by
  refine ⟨?_, ?_, rfl, fun s x => ⟨rfl, rfl⟩⟩
  · unfold pipelineScan mat_rows
    rw [scanList_length]
    simp only [List.length_map, List.length_range]
    show xs.cols + xs.rows - 1 = m + n - 1
    omega
  · unfold pipelineScan mat_rows
    rw [scanList_range_map_fst]
    show (pipelineState n m fn z carry0 xs
      ((transpose_to_pipeline_stage_inputs xs z).rows)).t = m + n - 1
    rw [pipelineState_t]
    show xs.cols + xs.rows - 1 = m + n - 1
    omega

/-- Witness for C8 at N=2, M=3: the loop runs 3+2-1 = 4 steps. -/
theorem scheduler_step_count_witness :
    (pipelineScan 2 3 (fun c x => (c, x)) (0 : Nat) (fun j => j)
      ⟨2, 3, fun i j => i + j⟩).2.length = 3 + 2 - 1 :=
  (scheduler_step_count 2 3 (fun c x => (c, x)) 0 (fun j => j)
    ⟨2, 3, fun i j => i + j⟩ rfl rfl).1
